import Mathlib

/-!
Verification of the file-upload client (`client.cpp`): frame codec,
checksum engine, transfer session (`send_file`), connection manager
(`manage_connection`) and batch driver (`main`), shallowly embedded.
Bytes are `Nat` values below 256; machine integers are `Nat` with
explicit `% 2 ^ 32` / `% 2 ^ 64` where the C++ types truncate.
-/

set_option maxRecDepth 8192

namespace CarClient

/-- `const size_t CHUNK_SIZE = 4096` — size of each read/send buffer. -/
def CHUNK_SIZE : Nat := 4096

/-- `const int MAX_RETRIES = 3`. -/
def MAX_RETRIES : Nat := 3

/-- `const int RETRY_INTERVAL = 5` (seconds). -/
def RETRY_INTERVAL : Nat := 5

/-- `htonl` of a value truncated to `uint32_t`, laid out on the wire:
the 4 bytes of `value % 2^32`, most significant first (network order). -/
def u32BE (n : Nat) : List Nat :=
  [n % 2 ^ 32 / 2 ^ 24 % 256, n % 2 ^ 32 / 2 ^ 16 % 256,
   n % 2 ^ 32 / 2 ^ 8 % 256, n % 2 ^ 32 % 256]

/-- The unsigned integer a big-endian byte string denotes. -/
def beVal (bs : List Nat) : Nat := bs.foldl (fun a b => 256 * a + b) 0

/-- An abstract streaming hash (the OpenSSL `MD5_Init` / `MD5_Update` /
`MD5_Final` interface): an initial state, an update consuming a block of
bytes, and a finalisation producing the digest bytes. -/
structure HashAlg (σ : Type) where
  init : σ
  update : σ → List Nat → σ
  final : σ → List Nat

/-- The byte blocks `calculate_md5` feeds to `MD5_Update`: the read loop
`while (file.read(buffer.data(), buffer.size()))` consumes one full
`CHUNK_SIZE` block per iteration, and after the loop one extra update is
made with the final `file.gcount()` bytes (the remainder, possibly empty). -/
def md5Chunks (content : List Nat) : List (List Nat) :=
  if content.length < CHUNK_SIZE then [content]
  else content.take CHUNK_SIZE :: md5Chunks (content.drop CHUNK_SIZE)
termination_by content.length
decreasing_by simp_all [CHUNK_SIZE]; omega

/-- The digest byte array (`unsigned char digest[MD5_DIGEST_LENGTH]`)
produced by folding the update over the fed blocks and finalising;
storage in `unsigned char` truncates each byte mod 256. -/
def digestBytes {σ : Type} (A : HashAlg σ) (content : List Nat) : List Nat :=
  (A.final ((md5Chunks content).foldl A.update A.init)).map (· % 256)

/-- One lowercase hex digit, as `%x` renders a nibble. -/
def hexDigit (n : Nat) : Char :=
  if n < 10 then Char.ofNat (48 + n) else Char.ofNat (87 + n)

/-- `snprintf(buf, 3, "%02x", b)` for one digest byte `b < 256`:
high nibble then low nibble, lowercase. -/
def byteHexChars (b : Nat) : List Char :=
  [hexDigit (b / 16 % 16), hexDigit (b % 16)]

/-- The result-accumulation loop of `calculate_md5`: append the two hex
characters of every digest byte in order. -/
def hexRender : List Nat → List Char
  | [] => []
  | b :: bs => byteHexChars b ++ hexRender bs

/-- `calculate_md5` on a file whose byte content is `content`, for the
abstract streaming hash `A`: feed the read blocks, finalise, hex-render. -/
def calculate_md5 {σ : Type} (A : HashAlg σ) (content : List Nat) : String :=
  ⟨hexRender (digestBytes A content)⟩

/-- Concatenation of the fed blocks (what the hash actually consumes). -/
def concatChunks : List (List Nat) → List Nat
  | [] => []
  | c :: cs => c ++ concatChunks cs

/-- The sixteen characters `%02x` can emit: the decimal digits followed
by the lowercase letters a–f. -/
def hexAlphabet : List Char :=
  (List.range 10).map (fun n => Char.ofNat (48 + n)) ++
    (List.range 6).map (fun n => Char.ofNat (97 + n))

/-- The socket as `send_file` sees it: the bytes written so far and how
many `boost::asio::write` calls have been issued in this session. -/
structure SendState where
  wire : List Nat
  writes : Nat
deriving DecidableEq, Repr

/-- How one `send_file` call ends: `ok` / `openFail` / `writeFail` are its
`true` and `false` returns (`openFail` before any write, `writeFail` from
the caught payload-write error); `connThrow` is a `system_error` from an
uncaught framing write escaping `send_file`; `md5Throw` is the
`runtime_error` thrown when `calculate_md5` fails to re-open the file. -/
inductive Outcome where
  | ok | openFail | writeFail | connThrow | md5Throw
deriving DecidableEq, Repr

/-- The observable effect of one `send_file` call: how it ended, the bytes
it put on the wire, and the progress percentages it reported. -/
structure SendResult where
  outcome : Outcome
  wire : List Nat
  progress : List Nat
deriving DecidableEq, Repr

/-- One `boost::asio::write(socket, ...)`: the oracle `wf` says whether
this (numbered) write call fails; on success the bytes are appended. -/
def doWrite (wf : Nat → Bool) (s : SendState) (bs : List Nat) : Option SendState :=
  if wf s.writes then none else some ⟨s.wire ++ bs, s.writes + 1⟩

/-- The payload loop of `send_file` (`while (total_bytes_sent < file_size)`):
`rest` is what the stream has yet to yield, so the guard
`total_bytes_sent < file_size` is `rest ≠ []`; each pass reads up to
`CHUNK_SIZE` bytes, writes exactly the `gcount()` bytes read, and reports
`100 * total_bytes_sent / file_size` (a `size_t` product, mod `2 ^ 64`).
A failed write is caught and the session returns `false`. -/
def sendChunks (wf : Nat → Bool) (fileSize : Nat) (rest : List Nat) (sent : Nat)
    (s : SendState) (prog : List Nat) : SendState × List Nat × Bool :=
  if rest = [] then (s, prog, true)
  else
    let chunk := rest.take CHUNK_SIZE
    match doWrite wf s chunk with
    | none => (s, prog, false)
    | some s' =>
        sendChunks wf fileSize (rest.drop CHUNK_SIZE) (sent + chunk.length) s'
          (prog ++ [100 * (sent + chunk.length) % 2 ^ 64 / fileSize])
termination_by rest.length
decreasing_by
  have hpos : 0 < rest.length := List.length_pos.mpr (by assumption)
  simp [CHUNK_SIZE, List.length_drop]
  omega

/-- The checksum string bytes `send_file` transmits: the characters of
`calculate_md5`, as bytes. -/
def md5WireBytes {σ : Type} (A : HashAlg σ) (content : List Nat) : List Nat :=
  (calculate_md5 A content).data.map Char.toNat

/-- `send_file(socket, file_path)`. `name` is `file_path.string()` as bytes.
`firstOpen` is the initial `std::ifstream` open (`none` = unreadable:
return `false` with nothing written); `secondOpen` is the re-open done
inside `calculate_md5` after the payload (`none` = it throws). Lengths
taken into `uint32_t` are truncated mod `2 ^ 32`, and a field write passes
the truncated length many bytes. -/
def send_file {σ : Type} (A : HashAlg σ) (wf : Nat → Bool) (name : List Nat)
    (firstOpen secondOpen : Option (List Nat)) : SendResult :=
  match firstOpen with
  | none => ⟨.openFail, [], []⟩
  | some content =>
    let fileSize := content.length
    match doWrite wf ⟨[], 0⟩ (u32BE name.length) with
    | none => ⟨.connThrow, [], []⟩
    | some s1 =>
    match doWrite wf s1 (name.take (name.length % 2 ^ 32)) with
    | none => ⟨.connThrow, s1.wire, []⟩
    | some s2 =>
    match doWrite wf s2 (u32BE fileSize) with
    | none => ⟨.connThrow, s2.wire, []⟩
    | some s3 =>
    match sendChunks wf fileSize content 0 s3 [] with
    | (s4, prog, false) => ⟨.writeFail, s4.wire, prog⟩
    | (s4, prog, true) =>
      match secondOpen with
      | none => ⟨.md5Throw, s4.wire, prog⟩
      | some content2 =>
        let md5Hash := md5WireBytes A content2
        match doWrite wf s4 (u32BE md5Hash.length) with
        | none => ⟨.connThrow, s4.wire, prog⟩
        | some s5 =>
        match doWrite wf s5 (md5Hash.take (md5Hash.length % 2 ^ 32)) with
        | none => ⟨.connThrow, s5.wire, prog⟩
        | some s6 => ⟨.ok, s6.wire, prog⟩

/-- What one iteration of the retry loop observes about its attempt:
`connErr` — `boost::asio::connect` (or an uncaught framing write inside
`send_file`) throws a `system_error`, landing in the `catch`;
`sendFalse` / `sendTrue` — `send_file` returns `false` / `true`;
`sendThrow` — `send_file` lets a non-`system_error` exception escape. -/
inductive AttemptOutcome where
  | connErr | sendFalse | sendTrue | sendThrow
deriving DecidableEq, Repr

/-- How one `manage_connection` call ends: returns after success, falls out
of the loop (`failed`), lets an exception escape (`thrown`), or is still
looping when the observation bound `fuel` runs out (`outOfFuel`). -/
inductive MCResult where
  | success | failed | thrown | outOfFuel
deriving DecidableEq, Repr

/-- The `AttemptOutcome` an attempt produces, from whether `connect`
succeeded and what `send_file` did — only `system_error` reaches the
`catch (const boost::system::system_error&)` handler, so a
`runtime_error` out of `calculate_md5` is `sendThrow`. -/
def attemptOf (connectOk : Bool) (r : SendResult) : AttemptOutcome :=
  if connectOk then
    match r.outcome with
    | .ok => .sendTrue
    | .openFail => .sendFalse
    | .writeFail => .sendFalse
    | .connThrow => .connErr
    | .md5Throw => .sendThrow
  else .connErr

/-- The `while (retry_count < MAX_RETRIES)` loop of `manage_connection`.
`att k` is the outcome of the k-th connect-and-transfer attempt; `k`
counts attempts begun, `delays` records every
`sleep_for(seconds(RETRY_INTERVAL))` performed. Only the `catch` branch
(`connErr`) increments `retry_count` and sleeps; a `false` return from
`send_file` just re-enters the loop. `fuel` bounds how many iterations we
observe (the C++ loop has no such bound). -/
def manage_connection_loop (att : Nat → AttemptOutcome) :
    Nat → Nat → Nat → List Nat → MCResult × Nat × List Nat
  | 0, k, _, delays => (.outOfFuel, k, delays)
  | fuel + 1, k, retry_count, delays =>
    if retry_count < MAX_RETRIES then
      match att k with
      | .sendTrue => (.success, k + 1, delays)
      | .sendThrow => (.thrown, k + 1, delays)
      | .sendFalse => manage_connection_loop att fuel (k + 1) retry_count delays
      | .connErr =>
          manage_connection_loop att fuel (k + 1) (retry_count + 1)
            (delays ++ [RETRY_INTERVAL])
    else (.failed, k, delays)

/-- `manage_connection(server, port, file_path)`: `resolver.resolve` runs
before the loop and outside any local `try`, so a resolution failure
throws out of the function with no attempt made; otherwise the retry loop
runs with `retry_count = 0`. Returns (how it ended, attempts begun,
sleeps performed). -/
def manage_connection (resolveOk : Bool) (att : Nat → AttemptOutcome) (fuel : Nat) :
    MCResult × Nat × List Nat :=
  if resolveOk then manage_connection_loop att fuel 0 0 [] else (.thrown, 0, [])

/-- The `main` loop over the enumerated files, given each file's
`manage_connection` ending: the whole loop sits in one `try`, so the
first delivery that throws aborts the batch (`true`) and later files are
never attempted. Returns (files attempted, whether the batch aborted). -/
def batchRun : List MCResult → Nat × Bool
  | [] => (0, false)
  | r :: rs =>
    match r with
    | .thrown => (1, true)
    | _ => ((batchRun rs).1 + 1, (batchRun rs).2)

/-- Number of passes the payload loop makes over a file of `n` bytes. -/
def numChunks (n : Nat) : Nat :=
  if n = 0 then 0 else numChunks (n - CHUNK_SIZE) + 1
termination_by n
decreasing_by simp_all [CHUNK_SIZE]; omega

/-- The cumulative `total_bytes_sent` values after each chunk write, for a
file with `n` bytes still to send and `sent` already sent. -/
def chunkSums (sent n : Nat) : List Nat :=
  if n = 0 then []
  else (sent + min CHUNK_SIZE n) :: chunkSums (sent + min CHUNK_SIZE n) (n - CHUNK_SIZE)
termination_by n
decreasing_by simp_all [CHUNK_SIZE]; omega

/-- The progress percentages the payload loop prints, in `size_t`
arithmetic, for a file of size `S`. -/
def chunkProg (S sent n : Nat) : List Nat :=
  if n = 0 then []
  else 100 * (sent + min CHUNK_SIZE n) % 2 ^ 64 / S ::
    chunkProg S (sent + min CHUNK_SIZE n) (n - CHUNK_SIZE)
termination_by n
decreasing_by simp_all [CHUNK_SIZE]; omega

/-- A concrete streaming hash to instantiate the abstract digest in
witness checks: the state is trivial and the digest is the fixed byte
pair `[171, 205]` (hex `abcd`). -/
def unitHash : HashAlg Unit :=
  { init := (), update := fun _ _ => (), final := fun _ => [171, 205] }

theorem md5Chunks_concat (content : List Nat) :
    concatChunks (md5Chunks content) = content := by
  rw [md5Chunks]
  split
  · simp [concatChunks]
  · rw [concatChunks, md5Chunks_concat (content.drop CHUNK_SIZE)]
    exact List.take_append_drop _ _
termination_by content.length
decreasing_by simp_all [CHUNK_SIZE]; omega

theorem hexRender_length (l : List Nat) : (hexRender l).length = 2 * l.length := by
  induction l with
  | nil => rfl
  | cons b bs ih => simp [hexRender, byteHexChars, ih]; omega

theorem hexDigit_mem (n : Nat) (h : n < 16) : hexDigit n ∈ hexAlphabet := by
  interval_cases n <;> decide

theorem hexRender_mem (l : List Nat) :
    ∀ c ∈ hexRender l, c ∈ hexAlphabet := by
  induction l with
  | nil => intro c hc; cases hc
  | cons b bs ih =>
    intro c hc
    rw [hexRender] at hc
    rcases List.mem_append.mp hc with h | h
    · simp only [byteHexChars, List.mem_cons, List.not_mem_nil, or_false] at h
      rcases h with h | h <;>
        exact h ▸ hexDigit_mem _ (Nat.mod_lt _ (by norm_num))
    · exact ih c h

theorem beVal_u32BE (n : Nat) : beVal (u32BE n) = n % 2 ^ 32 := by
  simp only [beVal, u32BE, List.foldl]
  omega

theorem u32BE_length (n : Nat) : (u32BE n).length = 4 := rfl

theorem u32BE_bytes_lt (n : Nat) : ∀ b ∈ u32BE n, b < 256 := by
  intro b hb
  simp only [u32BE, List.mem_cons, List.not_mem_nil, or_false] at hb
  rcases hb with h | h | h | h <;> exact h ▸ Nat.mod_lt _ (by norm_num)

theorem sendChunks_ok (wf : Nat → Bool) (hwf : ∀ k, wf k = false) (S : Nat)
    (rest : List Nat) (sent : Nat) (s : SendState) (prog : List Nat) :
    sendChunks wf S rest sent s prog =
      (⟨s.wire ++ rest, s.writes + numChunks rest.length⟩,
        prog ++ chunkProg S sent rest.length, true) := by
  rw [sendChunks]
  split
  · subst rest
    rw [numChunks, chunkProg]
    simp
  · rename_i hne
    simp only [doWrite, hwf, Bool.false_eq_true, if_false]
    rw [sendChunks_ok wf hwf S (rest.drop CHUNK_SIZE) (sent + (rest.take CHUNK_SIZE).length)
      ⟨s.wire ++ rest.take CHUNK_SIZE, s.writes + 1⟩
      (prog ++ [100 * (sent + (rest.take CHUNK_SIZE).length) % 2 ^ 64 / S])]
    have hlen : 0 < rest.length := List.length_pos.mpr hne
    have hnum : numChunks rest.length = numChunks (rest.length - CHUNK_SIZE) + 1 := by
      rw [numChunks]; simp [Nat.pos_iff_ne_zero.mp hlen]
    have hcp : chunkProg S sent rest.length =
        100 * (sent + min CHUNK_SIZE rest.length) % 2 ^ 64 / S ::
          chunkProg S (sent + min CHUNK_SIZE rest.length) (rest.length - CHUNK_SIZE) := by
      rw [chunkProg]; simp [Nat.pos_iff_ne_zero.mp hlen]
    simp [List.take_append_drop, List.length_drop, List.length_take, hnum, hcp,
      List.append_assoc, Nat.add_assoc, Nat.add_comm 1]
termination_by rest.length
decreasing_by
  have hpos : 0 < rest.length := List.length_pos.mpr (by assumption)
  simp [CHUNK_SIZE, List.length_drop]
  omega

theorem send_file_ok {σ : Type} (A : HashAlg σ) (wf : Nat → Bool)
    (hwf : ∀ k, wf k = false) (name content : List Nat) :
    send_file A wf name (some content) (some content) =
      { outcome := .ok,
        wire := u32BE name.length ++ name.take (name.length % 2 ^ 32)
          ++ u32BE content.length ++ content
          ++ u32BE (md5WireBytes A content).length
          ++ (md5WireBytes A content).take ((md5WireBytes A content).length % 2 ^ 32),
        progress := chunkProg content.length 0 content.length } := by
  unfold send_file
  simp only [doWrite, hwf, Bool.false_eq_true, if_false]
  rw [sendChunks_ok wf hwf]
  simp [List.append_assoc]

theorem send_file_md5Throw {σ : Type} (A : HashAlg σ) (wf : Nat → Bool)
    (hwf : ∀ k, wf k = false) (name content : List Nat) :
    send_file A wf name (some content) none =
      { outcome := .md5Throw,
        wire := u32BE name.length ++ name.take (name.length % 2 ^ 32)
          ++ u32BE content.length ++ content,
        progress := chunkProg content.length 0 content.length } := by
  unfold send_file
  simp only [doWrite, hwf, Bool.false_eq_true, if_false]
  rw [sendChunks_ok wf hwf]
  simp [List.append_assoc]

theorem chunkSums_le (sent n : Nat) : ∀ b ∈ chunkSums sent n, b ≤ sent + n := by
  rw [chunkSums]
  split
  · simp
  · rename_i h
    intro b hb
    rcases List.mem_cons.mp hb with rfl | hb
    · omega
    · have := chunkSums_le (sent + min CHUNK_SIZE n) (n - CHUNK_SIZE) b hb
      omega
termination_by n
decreasing_by simp_all [CHUNK_SIZE]; omega

theorem chunkSums_head_ge (sent n : Nat) : ∀ x ∈ (chunkSums sent n).head?, sent ≤ x := by
  rw [chunkSums]
  split
  · simp
  · intro x hx
    simp only [List.head?_cons, Option.mem_def, Option.some.injEq] at hx
    omega

theorem chunkSums_chain (sent n : Nat) : List.Chain' (· ≤ ·) (chunkSums sent n) := by
  rw [chunkSums]
  split
  · simp
  · rw [List.chain'_cons']
    exact ⟨fun y hy => chunkSums_head_ge _ _ y hy, chunkSums_chain _ _⟩
termination_by n
decreasing_by simp_all [CHUNK_SIZE]; omega

theorem chunkSums_ne_nil (sent n : Nat) (h : n ≠ 0) : chunkSums sent n ≠ [] := by
  rw [chunkSums]
  simp [h]

theorem chunkSums_getLast (sent n : Nat) (h : n ≠ 0) :
    (chunkSums sent n).getLast? = some (sent + n) := by
  rw [chunkSums, if_neg h]
  by_cases h2 : n - CHUNK_SIZE = 0
  · rw [chunkSums, if_pos h2]
    have : min CHUNK_SIZE n = n := by omega
    rw [this]
    rfl
  · have ihl : (chunkSums (sent + min CHUNK_SIZE n) (n - CHUNK_SIZE)).getLast?
        = some (sent + min CHUNK_SIZE n + (n - CHUNK_SIZE)) :=
      chunkSums_getLast (sent + min CHUNK_SIZE n) (n - CHUNK_SIZE) h2
    cases hl : chunkSums (sent + min CHUNK_SIZE n) (n - CHUNK_SIZE) with
    | nil => exact absurd hl (chunkSums_ne_nil _ _ h2)
    | cons a l =>
      rw [hl] at ihl
      rw [List.getLast?_cons_cons, ihl]
      exact congrArg some (by omega)
termination_by n
decreasing_by simp_all [CHUNK_SIZE]; omega

theorem chunkProg_eq_map (S sent n : Nat) (hov : 100 * (sent + n) < 2 ^ 64) :
    chunkProg S sent n = (chunkSums sent n).map (fun b => 100 * b / S) := by
  rw [chunkProg, chunkSums]
  by_cases h : n = 0
  · simp [h]
  · rw [if_neg h, if_neg h, List.map_cons]
    congr 1
    · rw [Nat.mod_eq_of_lt (by omega)]
    · exact chunkProg_eq_map S (sent + min CHUNK_SIZE n) (n - CHUNK_SIZE) (by omega)
termination_by n
decreasing_by simp_all [CHUNK_SIZE]; omega

theorem hundred_div_eq_iff (S b : Nat) (hS : 0 < S) (hb : b ≤ S)
    (h : 100 * b / S = 100) : b = S := by
  have h1 : 100 * S ≤ 100 * b := (Nat.le_div_iff_mul_le hS).mp (le_of_eq h.symm)
  omega

theorem md5WireBytes_length {σ : Type} (A : HashAlg σ) (content : List Nat) :
    (md5WireBytes A content).length = 2 * (digestBytes A content).length := by
  simp [md5WireBytes, calculate_md5, hexRender_length]

theorem mc_loop_sendFalse (fuel k : Nat) :
    manage_connection_loop (fun _ => .sendFalse) fuel k 0 [] = (.outOfFuel, k + fuel, []) := by
  induction fuel generalizing k with
  | zero => simp [manage_connection_loop]
  | succ n ih =>
    rw [manage_connection_loop]
    simp only [MAX_RETRIES]
    rw [if_pos (by omega)]
    rw [ih (k + 1), show k + 1 + n = k + (n + 1) from by omega]

theorem mc_connErr_exhaust (m : Nat) :
    manage_connection true (fun _ => .connErr) (m + 4) =
      (.failed, 3, [RETRY_INTERVAL, RETRY_INTERVAL, RETRY_INTERVAL]) := by
  simp [manage_connection, manage_connection_loop, MAX_RETRIES]

/-- C1: for every file whose transfer succeeds (all writes succeed), the
byte sequence `send_file` puts on the connection is exactly: the 4-byte
big-endian length of the name, the name bytes, the 4-byte big-endian file
size, the payload bytes in file order with no per-chunk framing, the
4-byte big-endian length of the checksum string, and the checksum bytes —
in that order. -/
theorem C1_send_file_wire_order {σ : Type} (A : HashAlg σ) (wf : Nat → Bool)
    (name content : List Nat) (hwf : ∀ k, wf k = false)
    (hname : name.length < 2 ^ 32)
    (hmd5 : (md5WireBytes A content).length < 2 ^ 32) :
    (send_file A wf name (some content) (some content)).outcome = .ok ∧
    (send_file A wf name (some content) (some content)).wire =
      u32BE name.length ++ name ++ u32BE content.length ++ content
        ++ u32BE (md5WireBytes A content).length ++ md5WireBytes A content := by
  rw [send_file_ok A wf hwf name content]
  refine ⟨rfl, ?_⟩
  rw [Nat.mod_eq_of_lt hname, Nat.mod_eq_of_lt hmd5, List.take_length, List.take_length]

/-- Witness for C1 at a concrete hash, name and two-byte file. -/
theorem C1_send_file_wire_order_witness :
    (send_file unitHash (fun _ => false) [65] (some [7, 8]) (some [7, 8])).outcome = .ok ∧
    (send_file unitHash (fun _ => false) [65] (some [7, 8]) (some [7, 8])).wire =
      u32BE (List.length [65]) ++ [65] ++ u32BE (List.length [7, 8]) ++ [7, 8]
        ++ u32BE (md5WireBytes unitHash [7, 8]).length ++ md5WireBytes unitHash [7, 8] :=
  C1_send_file_wire_order unitHash (fun _ => false) [65] [7, 8] (fun _ => rfl)
    (by norm_num) (by rw [md5WireBytes_length]; norm_num [digestBytes, unitHash])

/-- C2: `calculate_md5` is deterministic and equals the lowercase
hexadecimal rendering of the streaming hash of the file's complete byte
content: the blocks fed to the hash concatenate to exactly the content
(the last, partial block contributes its actual byte count, not the
buffer capacity), the output has two hex characters per digest byte, all
characters are lowercase hex, and recomputation yields the same string. -/
theorem C2_calculate_md5_digest {σ : Type} (A : HashAlg σ) (content : List Nat) :
    concatChunks (md5Chunks content) = content ∧
    calculate_md5 A content = ⟨hexRender (digestBytes A content)⟩ ∧
    (calculate_md5 A content).length = 2 * (digestBytes A content).length ∧
    (∀ c ∈ (calculate_md5 A content).data, c ∈ hexAlphabet) ∧
    calculate_md5 A content = calculate_md5 A content := by
  refine ⟨md5Chunks_concat content, rfl, ?_, ?_, rfl⟩
  · exact hexRender_length _
  · intro c hc
    exact hexRender_mem _ c hc

/-- C4: a file that cannot be opened makes `send_file` return `false`
immediately with no bytes written: the open check precedes every
protocol write, so the connection is untouched. -/
theorem C4_open_fail_no_bytes {σ : Type} (A : HashAlg σ) (wf : Nat → Bool)
    (name : List Nat) (secondOpen : Option (List Nat)) :
    send_file A wf name none secondOpen =
      { outcome := .openFail, wire := [], progress := [] } := rfl

/-- C6: a zero-byte file sends the name field, a size field encoding 0,
then immediately the checksum field holding the digest of the empty byte
sequence — no payload bytes in between, no progress reports — and
`send_file` returns `true` when all writes succeed. -/
theorem C6_zero_byte_file {σ : Type} (A : HashAlg σ) (wf : Nat → Bool) (name : List Nat)
    (hwf : ∀ k, wf k = false) (hname : name.length < 2 ^ 32)
    (hmd5 : (md5WireBytes A []).length < 2 ^ 32) :
    send_file A wf name (some []) (some []) =
      { outcome := .ok,
        wire := u32BE name.length ++ name ++ u32BE 0
          ++ u32BE (md5WireBytes A []).length ++ md5WireBytes A [],
        progress := [] } := by
  rw [send_file_ok A wf hwf name []]
  rw [chunkProg]
  rw [Nat.mod_eq_of_lt hname, Nat.mod_eq_of_lt hmd5, List.take_length, List.take_length]
  simp

/-- Witness for C6 at a concrete hash and name. -/
theorem C6_zero_byte_file_witness :
    send_file unitHash (fun _ => false) [65] (some []) (some []) =
      { outcome := .ok,
        wire := u32BE (List.length [65]) ++ [65] ++ u32BE 0
          ++ u32BE (md5WireBytes unitHash []).length ++ md5WireBytes unitHash [],
        progress := [] } :=
  C6_zero_byte_file unitHash (fun _ => false) [65] (fun _ => rfl)
    (by norm_num) (by rw [md5WireBytes_length]; norm_num [digestBytes, unitHash])

/-- C3 (bug exhibit): when the connection succeeds on every attempt but
`send_file` returns `false` each time (e.g. the file cannot be opened),
the retry loop never increments `retry_count` — it is incremented only in
the `catch` branch — so for EVERY observation bound `fuel` the loop has
begun `fuel` attempts, slept zero times, and is still running: attempts
are not bounded by `MAX_RETRIES` (3) and the `failed` report is never
reached, contradicting the claimed bound. -/
theorem C3_sendFalse_unbounded_attempts (fuel : Nat) :
    manage_connection true (fun _ => .sendFalse) fuel = (.outOfFuel, fuel, []) ∧
    (manage_connection true (fun _ => .sendFalse) fuel).1 ≠ .failed := by
  have h : manage_connection true (fun _ => .sendFalse) fuel = (.outOfFuel, fuel, []) := by
    have h0 := mc_loop_sendFalse fuel 0
    simpa [manage_connection] using h0
  exact ⟨h, by rw [h]; exact fun hc => MCResult.noConfusion hc⟩

/-- C5: with a connection provider failing on every attempt, the manager
makes exactly 3 attempts, sleeps the fixed 5-second delay after each
failure, ends in the non-throwing `failed` report, and the batch
continues past such a file. -/
theorem C5_retry_exhaustion (fuel : Nat) (rs : List MCResult) (hfuel : 4 ≤ fuel) :
    manage_connection true (fun _ => .connErr) fuel =
      (.failed, 3, [RETRY_INTERVAL, RETRY_INTERVAL, RETRY_INTERVAL]) ∧
    batchRun (.failed :: rs) = ((batchRun rs).1 + 1, (batchRun rs).2) := by
  obtain ⟨m, rfl⟩ : ∃ m, fuel = m + 4 := ⟨fuel - 4, by omega⟩
  exact ⟨mc_connErr_exhaust m, rfl⟩

/-- Witness for C5 at fuel 4 and a one-file remainder. -/
theorem C5_retry_exhaustion_witness :
    manage_connection true (fun _ => .connErr) 4 =
      (.failed, 3, [RETRY_INTERVAL, RETRY_INTERVAL, RETRY_INTERVAL]) ∧
    batchRun (.failed :: [.success]) =
      ((batchRun [.success]).1 + 1, (batchRun [.success]).2) :=
  C5_retry_exhaustion 4 [.success] (by norm_num)

/-- C7: for a non-empty file sent successfully, the reported progress
sequence is exactly `100 * bytes_sent / file_size` (floor) after each
chunk write, is monotonically non-decreasing, ends at exactly 100, and a
step shows 100 only when all bytes have been sent. -/
theorem C7_progress_sequence {σ : Type} (A : HashAlg σ) (wf : Nat → Bool)
    (name content : List Nat) (hwf : ∀ k, wf k = false) (hne : content ≠ [])
    (hov : 100 * content.length < 2 ^ 64) :
    (send_file A wf name (some content) (some content)).progress =
      (chunkSums 0 content.length).map (fun b => 100 * b / content.length) ∧
    List.Chain' (· ≤ ·) ((send_file A wf name (some content) (some content)).progress) ∧
    ((send_file A wf name (some content) (some content)).progress).getLast? = some 100 ∧
    (∀ b ∈ chunkSums 0 content.length,
      100 * b / content.length = 100 → b = content.length) := by
  have hS : 0 < content.length := List.length_pos.mpr hne
  rw [send_file_ok A wf hwf name content]
  have hmap : chunkProg content.length 0 content.length =
      (chunkSums 0 content.length).map (fun b => 100 * b / content.length) :=
    chunkProg_eq_map _ 0 _ (by omega)
  refine ⟨hmap, ?_, ?_, ?_⟩
  · show List.Chain' (· ≤ ·) (chunkProg content.length 0 content.length)
    rw [hmap, List.chain'_map]
    exact (chunkSums_chain 0 content.length).imp
      (fun a b hab => Nat.div_le_div_right (Nat.mul_le_mul_left 100 hab))
  · show (chunkProg content.length 0 content.length).getLast? = some 100
    rw [hmap, List.getLast?_map, chunkSums_getLast 0 content.length (by omega)]
    simp only [Option.map_some, Nat.zero_add]
    exact congrArg some (Nat.mul_div_cancel 100 hS)
  · intro b hb hdiv
    exact hundred_div_eq_iff content.length b hS
      (by have := chunkSums_le 0 content.length b hb; omega) hdiv

/-- Witness for C7 at a concrete three-byte file. -/
theorem C7_progress_sequence_witness :
    ([7, 8, 9] : List Nat) ≠ [] ∧
    (send_file unitHash (fun _ => false) [65] (some [7, 8, 9]) (some [7, 8, 9])).progress =
      (chunkSums 0 (List.length [7, 8, 9])).map
        (fun b => 100 * b / List.length [7, 8, 9]) :=
  ⟨by decide,
    (C7_progress_sequence unitHash (fun _ => false) [65] [7, 8, 9] (fun _ => rfl)
      (by decide) (by norm_num)).1⟩

/-- C8: the size field on the wire sits between the name field and the
payload, is 4 bytes of values below 256, and decodes as a big-endian
unsigned integer to the payload byte count reduced mod `2 ^ 32` (the
`uint32_t` truncation), the payload streamed being exactly the content. -/
theorem C8_size_field_encoding {σ : Type} (A : HashAlg σ) (wf : Nat → Bool)
    (name content : List Nat) (hwf : ∀ k, wf k = false) :
    (send_file A wf name (some content) (some content)).wire =
      u32BE name.length ++ name.take (name.length % 2 ^ 32)
        ++ u32BE content.length ++ content
        ++ u32BE (md5WireBytes A content).length
        ++ (md5WireBytes A content).take ((md5WireBytes A content).length % 2 ^ 32) ∧
    (u32BE content.length).length = 4 ∧
    (∀ b ∈ u32BE content.length, b < 256) ∧
    beVal (u32BE content.length) = content.length % 2 ^ 32 := by
  refine ⟨?_, u32BE_length _, u32BE_bytes_lt _, beVal_u32BE _⟩
  rw [send_file_ok A wf hwf name content]

/-- Witness for C8 at a concrete two-byte file. -/
theorem C8_size_field_encoding_witness :
    (send_file unitHash (fun _ => false) [65] (some [9, 9]) (some [9, 9])).wire =
      u32BE (List.length [65]) ++ ([65] : List Nat).take (List.length [65] % 2 ^ 32)
        ++ u32BE (List.length [9, 9]) ++ [9, 9]
        ++ u32BE (md5WireBytes unitHash [9, 9]).length
        ++ (md5WireBytes unitHash [9, 9]).take
            ((md5WireBytes unitHash [9, 9]).length % 2 ^ 32) ∧
    (u32BE (List.length [9, 9])).length = 4 ∧
    (∀ b ∈ u32BE (List.length [9, 9]), b < 256) ∧
    beVal (u32BE (List.length [9, 9])) = List.length [9, 9] % 2 ^ 32 :=
  C8_size_field_encoding unitHash (fun _ => false) [65] [9, 9] (fun _ => rfl)

/-- C9: a resolution failure happens before the retry loop and outside any
local handler, so it propagates out of `manage_connection` with zero
attempts made and aborts the whole batch (only the throwing file was
attempted, later files never start); by contrast a connect failure is
retried within the same file's delivery — after one connection error and
a delay, a successful second attempt ends in `success`. -/
theorem C9_resolution_aborts_batch (att : Nat → AttemptOutcome) (fuel : Nat)
    (rs : List MCResult) (hfuel : 2 ≤ fuel)
    (h0 : att 0 = .connErr) (h1 : att 1 = .sendTrue) :
    manage_connection false att fuel = (.thrown, 0, []) ∧
    batchRun (.thrown :: rs) = (1, true) ∧
    manage_connection true att fuel = (.success, 2, [RETRY_INTERVAL]) := by
  obtain ⟨m, rfl⟩ : ∃ m, fuel = m + 2 := ⟨fuel - 2, by omega⟩
  refine ⟨by simp [manage_connection], rfl, ?_⟩
  simp [manage_connection, manage_connection_loop, MAX_RETRIES, h0, h1]

/-- Witness for C9 at a concrete attempt oracle and fuel 2. -/
theorem C9_resolution_aborts_batch_witness :
    manage_connection false (fun k => if k = 0 then .connErr else .sendTrue) 2 =
      (.thrown, 0, []) ∧
    batchRun (.thrown :: [.success]) = (1, true) ∧
    manage_connection true (fun k => if k = 0 then .connErr else .sendTrue) 2 =
      (.success, 2, [RETRY_INTERVAL]) :=
  C9_resolution_aborts_batch (fun k => if k = 0 then .connErr else .sendTrue) 2
    [.success] (by norm_num) rfl rfl

/-- C10: the checksum is computed by re-opening the file after the whole
payload is already on the wire; if that second open fails,
`calculate_md5` throws an error that neither `send_file` nor
`manage_connection`'s `system_error` handler catches, so the delivery
ends `thrown` after one attempt and the whole batch aborts — later files
are never attempted — instead of a single-file failure report. -/
theorem C10_md5_reopen_throw_aborts_batch {σ : Type} (A : HashAlg σ) (wf : Nat → Bool)
    (name content : List Nat) (fuel : Nat) (rs : List MCResult)
    (hwf : ∀ k, wf k = false) (hfuel : 1 ≤ fuel) :
    (send_file A wf name (some content) none).outcome = .md5Throw ∧
    (send_file A wf name (some content) none).wire =
      u32BE name.length ++ name.take (name.length % 2 ^ 32)
        ++ u32BE content.length ++ content ∧
    attemptOf true (send_file A wf name (some content) none) = .sendThrow ∧
    manage_connection true
      (fun _ => attemptOf true (send_file A wf name (some content) none)) fuel =
      (.thrown, 1, []) ∧
    batchRun (.thrown :: rs) = (1, true) := by
  obtain ⟨m, rfl⟩ : ∃ m, fuel = m + 1 := ⟨fuel - 1, by omega⟩
  have hsf := send_file_md5Throw A wf hwf name content
  have hatt : attemptOf true (send_file A wf name (some content) none) = .sendThrow := by
    rw [hsf]
    rfl
  refine ⟨by rw [hsf], by rw [hsf], hatt, ?_, rfl⟩
  simp [manage_connection, manage_connection_loop, MAX_RETRIES, hatt]

/-- Witness for C10 at a concrete hash, a one-byte file and fuel 1. -/
theorem C10_md5_reopen_throw_aborts_batch_witness :
    (send_file unitHash (fun _ => false) [65] (some [7]) none).outcome = .md5Throw ∧
    (send_file unitHash (fun _ => false) [65] (some [7]) none).wire =
      u32BE (List.length [65]) ++ ([65] : List Nat).take (List.length [65] % 2 ^ 32)
        ++ u32BE (List.length [7]) ++ [7] ∧
    attemptOf true (send_file unitHash (fun _ => false) [65] (some [7]) none) =
      .sendThrow ∧
    manage_connection true
      (fun _ => attemptOf true (send_file unitHash (fun _ => false) [65] (some [7]) none))
      1 = (.thrown, 1, []) ∧
    batchRun (.thrown :: [.success]) = (1, true) :=
  C10_md5_reopen_throw_aborts_batch unitHash (fun _ => false) [65] [7] 1 [.success]
    (fun _ => rfl) (by norm_num)

end CarClient
